/-
  Verification of the scrapeforllm repository's crawl-and-extract pipeline.

  Shallow embedding of:
    * src/complete_web_scraper.py : CompleteTextWebScraper.discover_all_pages
    * src/web_scraper.py          : WebScraperForLLM.discover_urls,
                                    scrape_page, scrape_multiple_urls,
                                    _extract_links, _extract_clean_text,
                                    save_to_csv

  Modelling conventions:
    * URLs are structured values ⟨host, path, frag⟩; `Url.renderFullL`
      produces the character sequence the Python code manipulates with
      `lower()`, `endswith` and substring tests.  The scheme is fixed to
      "https://" (the claims never depend on the scheme text).
    * An anchor's href is an inductive value whose constructors partition
      raw href strings by the prefixes the code tests for
      (empty / "#..." / "javascript:", "mailto:", "tel:" / absolute / relative).
    * `urljoin` models urllib.parse.urljoin on those shapes.
    * Python's unordered `set` is modelled as the insertion-ordered list of
      additions; `list(set)` iteration order is modelled by sorting with an
      arbitrary rank function (the hash-table order is unspecified).
    * The `while` loops run on fuel; theorems quantify over all fuel, so
      they hold for the actual (terminating) runs.
-/
import Mathlib

set_option maxRecDepth 4000

/-! ## Character-list string helpers (model of str.lower / endswith / in) -/

/-- Lower-case every character, modelling Python `str.lower()` on ASCII. -/
def lowerL (l : List Char) : List Char := l.map Char.toLower

/-- `listHasPre n s` : `s` starts with `n` (model of `str.startswith`). -/
def listHasPre : List Char → List Char → Bool
  | [], _ => true
  | _ :: _, [] => false
  | a :: as, b :: bs => a == b && listHasPre as bs

/-- `listHasSub n s` : `n` occurs as a contiguous run inside `s`
(model of Python's `n in s`). -/
def listHasSub : List Char → List Char → Bool
  | n, [] => n.isEmpty
  | n, c :: rest => listHasPre n (c :: rest) || listHasSub n rest

/-- `listEndsWith n s` : `s` ends with `n` (model of `str.endswith`). -/
def listEndsWith (n s : List Char) : Bool := listHasPre n.reverse s.reverse

/-- Python `str.strip()`: drop leading and trailing whitespace. -/
def trimS (s : String) : String :=
  String.mk (((s.data.dropWhile Char.isWhitespace).reverse.dropWhile Char.isWhitespace).reverse)

/-- Python `str.startswith` on whole strings. -/
def startsWithS (pre s : String) : Bool := listHasPre pre.data s.data

/-! ## URLs -/

/-- A parsed absolute URL as produced by `urllib.parse.urlparse`:
network location (host), path (never containing '#', since urlparse
splits the fragment off first) and fragment ("" meaning absent). -/
structure Url where
  host : String
  path : String
  frag : String
deriving DecidableEq, Repr

/-- `url.split('#')[0]` : drop the fragment. -/
def Url.clean (u : Url) : Url := { u with frag := "" }

/-- The characters of the URL before the fragment. -/
def Url.renderBaseL (u : Url) : List Char :=
  if u.host = "" then u.path.data else ("https://" ++ u.host ++ u.path).data

/-- The characters of the full URL string (fragment included), i.e. the
`full_url` string the Python code applies `lower()/endswith/in` to. -/
def Url.renderFullL (u : Url) : List Char :=
  u.renderBaseL ++ (if u.frag = "" then [] else '#' :: u.frag.data)

/-- src/complete_web_scraper.py line 468. -/
def excludedExtensions : List String :=
  [".pdf", ".jpg", ".jpeg", ".png", ".gif", ".zip", ".doc", ".docx", ".xls", ".xlsx"]

/-- src/complete_web_scraper.py line 469. -/
def excludedPaths : List String :=
  ["/admin/", "/wp-admin/", "/login/", "/register/", "/api/"]

/-- `any(full_url.lower().endswith(ext) for ext in excluded_extensions)`. -/
def extExcluded (u : Url) : Bool :=
  excludedExtensions.any (fun e => listEndsWith e.data (lowerL u.renderFullL))

/-- `any(path in full_url.lower() for path in excluded_paths)`. -/
def pathExcluded (u : Url) : Bool :=
  excludedPaths.any (fun p => listHasSub p.data (lowerL u.renderFullL))

/-! ## Hrefs and urljoin -/

/-- A raw anchor href, partitioned by the string prefixes the code tests:
`empty` is `""`, `fragOnly f` is `"#f"`, `special s` is a
`javascript:`/`mailto:`/`tel:` href with full text `s`, `abs` is an
absolute http(s) URL, `rel p f` is a relative reference (path `p`,
optional fragment `f`). Paths and hosts contain no `#`. -/
inductive Href where
  | empty
  | fragOnly (f : String)
  | special (s : String)
  | abs (host path frag : String)
  | rel (path frag : String)
deriving DecidableEq, Repr

/-- `not href or href.startswith(('#', 'javascript:', 'mailto:', 'tel:'))`
(src/complete_web_scraper.py line 458). -/
def Href.skipped : Href → Bool
  | .empty => true
  | .fragOnly _ => true
  | .special _ => true
  | _ => false

/-- Directory part of a path: everything up to and including the last '/'. -/
def dirOf (bp : String) : String :=
  String.mk ((bp.data.reverse.dropWhile (· ≠ '/')).reverse)

/-- Relative-path resolution as in urljoin: absolute paths stand,
others replace the last segment of the base path. -/
def joinPath (bp p : String) : String :=
  if startsWithS "/" p then p else dirOf bp ++ p

/-- Model of `urllib.parse.urljoin(base, href)` followed by
`urlparse` of the result.  A `special` href keeps its own (host-less)
scheme, so its netloc is `""`. -/
def urljoin (base : Url) : Href → Url
  | .empty => base
  | .fragOnly f => { base with frag := f }
  | .special s => ⟨"", s, ""⟩
  | .abs h p f => ⟨h, p, f⟩
  | .rel p f => ⟨base.host, joinPath base.path p, f⟩

/-! ## Python `list(set(...))` -/

/-- Insert into a list sorted by `rank` (ascending, stable). -/
def insertByRank (rank : Url → Nat) (u : Url) : List Url → List Url
  | [] => [u]
  | v :: vs => if rank u ≤ rank v then u :: v :: vs else v :: insertByRank rank u vs

/-- Model of iterating a Python `set`: the elements come back in an order
governed by the (unspecified) hash table layout, modelled here by an
arbitrary rank function. `l` is the insertion-ordered list of additions. -/
def pySetElems (rank : Url → Nat) (l : List Url) : List Url :=
  l.foldr (insertByRank rank) []

/-! ## The web and the two crawl loops -/

/-- A finite web: each fetchable page is keyed by URL and yields the hrefs
of its anchors in document order.  A URL absent from the list models a
fetch that raises (transport error or non-2xx status). -/
def Web := List (Url × List Href)

/-- Fetch a page's links; `none` models the `except` branch. -/
def webFind : Web → Url → Option (List Href)
  | [], _ => none
  | (k, ls) :: rest, u => if k = u then some ls else webFind rest u

/-- Crawl limits of `discover_all_pages`; `baseHost` is
`urlparse(self.base_url).netloc`. -/
structure CrawlCfg where
  baseHost : String
  maxPages : Nat
  maxDepth : Nat
deriving Repr

/-- The inner `for link in soup.find_all('a', href=True)` loop of
`discover_all_pages` (src/complete_web_scraper.py lines 456-475):
skip empty/fragment/script/mail/tel hrefs, resolve against the cleaned
page URL, keep same-domain (or host-less) targets not matching the
excluded extensions/paths, in document order. -/
def pageLinksA (baseHost : String) (cu : Url) (hrefs : List Href) : List Url :=
  hrefs.filterMap (fun h =>
    if h.skipped then none
    else
      if ((urljoin cu h).host = baseHost ∨ (urljoin cu h).host = "") ∧
          extExcluded (urljoin cu h) = false ∧ pathExcluded (urljoin cu h) = false
      then some (urljoin cu h) else none)

/-- State of the `discover_all_pages` loop.  `discovered` and `visited`
are the insertion-ordered contents of the Python sets; `enqLog` records
every entry ever placed on `to_visit` (the initial seed included);
`visitLog` records every `(clean_url, depth)` admitted past the checks. -/
structure StA where
  toVisit : List (Url × Nat)
  visited : List Url
  discovered : List Url
  enqLog : List (Url × Nat)
  visitLog : List (Url × Nat)
deriving Repr

/-- The links enqueued after visiting a page of `discover_all_pages`:
nothing when the depth or page budget is exhausted or the fetch raised,
otherwise the filtered internal links at depth+1.  `dlen` is the size of
the discovered set after the current page was added. -/
def newEntriesA (cfg : CrawlCfg) (web : Web) (cu : Url) (depth dlen : Nat) :
    List (Url × Nat) :=
  if depth < cfg.maxDepth ∧ dlen < cfg.maxPages then
    match webFind web cu with
    | none => []
    | some hrefs => (pageLinksA cfg.baseHost cu hrefs).map (fun fu => (fu, depth + 1))
  else []

/-- The `while to_visit and len(discovered_urls) < max_pages` loop of
`discover_all_pages` (src/complete_web_scraper.py lines 431-483),
run on fuel. -/
def crawlA (cfg : CrawlCfg) (web : Web) : Nat → StA → StA
  | 0, st => st
  | fuel + 1, st =>
    if st.discovered.length < cfg.maxPages then
      match st.toVisit with
      | [] => st
      | (url, depth) :: rest =>
        if url ∈ st.visited ∨ depth > cfg.maxDepth then
          crawlA cfg web fuel { st with toVisit := rest }
        else if url.clean ∈ st.visited then
          crawlA cfg web fuel { st with toVisit := rest }
        else
          crawlA cfg web fuel
            { toVisit := rest ++ newEntriesA cfg web url.clean depth (st.discovered.length + 1)
              visited := st.visited ++ [url.clean]
              discovered := st.discovered ++ [url.clean]
              enqLog := st.enqLog ++ newEntriesA cfg web url.clean depth (st.discovered.length + 1)
              visitLog := st.visitLog ++ [(url.clean, depth)] }
    else st

/-- `discover_all_pages(start_url, max_pages, max_depth)` up to the final
`list(discovered_urls)` (the final state is returned so that every
component can be inspected). -/
def discoverAllPages (cfg : CrawlCfg) (web : Web) (start : Url) (fuel : Nat) : StA :=
  crawlA cfg web fuel ⟨[(start, 0)], [], [], [(start, 0)], []⟩

/-- The value `discover_all_pages` actually returns:
`list(discovered_urls)`, i.e. the set contents in hash-table order. -/
def discoverAllPagesRet (rank : Url → Nat) (cfg : CrawlCfg) (web : Web)
    (start : Url) (fuel : Nat) : List Url :=
  pySetElems rank (discoverAllPages cfg web start fuel).discovered

/-- The inner link loop of `WebScraperForLLM.discover_urls`
(src/web_scraper.py lines 279-285): every href is resolved (no prefix
skipping) and kept iff its netloc equals the configured base netloc. -/
def pageLinksB (baseHost : String) (u : Url) (hrefs : List Href) : List Url :=
  hrefs.filterMap (fun h =>
    if (urljoin u h).host = baseHost then some (urljoin u h) else none)

/-- State of the `discover_urls` loop. -/
structure StB where
  toVisit : List (Url × Nat)
  visited : List Url
  discovered : List Url
deriving Repr

/-- The links enqueued after visiting a page of `discover_urls`. -/
def newEntriesB (baseHost : String) (web : Web) (u : Url) (depth maxDepth : Nat) :
    List (Url × Nat) :=
  if depth < maxDepth then
    match webFind web u with
    | none => []
    | some hrefs => (pageLinksB baseHost u hrefs).map (fun fu => (fu, depth + 1))
  else []

/-- The `while to_visit` loop of `discover_urls`
(src/web_scraper.py lines 261-292), run on fuel.  No page cap, no
fragment stripping, no extension/path exclusion. -/
def crawlB (baseHost : String) (web : Web) (maxDepth : Nat) : Nat → StB → StB
  | 0, st => st
  | fuel + 1, st =>
    match st.toVisit with
    | [] => st
    | (url, depth) :: rest =>
      if url ∈ st.visited ∨ depth > maxDepth then
        crawlB baseHost web maxDepth fuel { st with toVisit := rest }
      else
        crawlB baseHost web maxDepth fuel
          { toVisit := rest ++ newEntriesB baseHost web url depth maxDepth
            visited := st.visited ++ [url]
            discovered := st.discovered ++ [url] }

/-- `discover_urls(start_url, max_depth)` up to the final
`list(discovered_urls)`. -/
def discoverUrls (baseHost : String) (web : Web) (start : Url)
    (maxDepth : Nat) (fuel : Nat) : StB :=
  crawlB baseHost web maxDepth fuel ⟨[(start, 0)], [], []⟩

/-- The value `discover_urls` actually returns: `list(discovered_urls)`. -/
def discoverUrlsRet (rank : Url → Nat) (baseHost : String) (web : Web)
    (start : Url) (maxDepth : Nat) (fuel : Nat) : List Url :=
  pySetElems rank (discoverUrls baseHost web start maxDepth fuel).discovered

/-! ## Parsed HTML documents (model of the BeautifulSoup tree) -/

mutual
/-- A node of the parse tree: a text run or an element with a tag,
attributes and children. -/
inductive Node where
  | text (s : String)
  | elem (tag : String) (attrs : List (String × String)) (children : NodeList)
/-- A sequence of sibling nodes (the mutual shape keeps all recursion
structural). -/
inductive NodeList where
  | nil
  | cons (n : Node) (ns : NodeList)
end

/-- Attributes of a node (empty for text runs). -/
def nodeAttrs : Node → List (String × String)
  | .text _ => []
  | .elem _ a _ => a

mutual
/-- The text runs below a node, in document order
(BeautifulSoup's `.strings`). -/
def textsN : Node → List String
  | .text s => [s]
  | .elem _ _ cs => textsL cs
def textsL : NodeList → List String
  | .nil => []
  | .cons n ns => textsN n ++ textsL ns
end

/-- `node.get_text()` with default arguments: the raw concatenation of
all text runs below the node. -/
def rawTextN (n : Node) : String := String.join (textsN n)

/-- `soup.get_text(separator=' ', strip=True)`: each text run stripped,
empty runs dropped, the rest joined with single spaces. -/
def getTextSepStrip (ns : NodeList) : String :=
  String.intercalate " " ((textsL ns).map trimS |>.filter (fun s => s ≠ ""))

mutual
/-- `element.decompose()` applied to every element whose tag is in `bad`:
the element and its whole subtree disappear. -/
def pruneNode (bad : List String) : Node → Option Node
  | .text s => some (.text s)
  | .elem t a cs => if t ∈ bad then none else some (.elem t a (pruneList bad cs))
def pruneList (bad : List String) : NodeList → NodeList
  | .nil => .nil
  | .cons n ns =>
    match pruneNode bad n with
    | none => pruneList bad ns
    | some n' => .cons n' (pruneList bad ns)
end

mutual
/-- `soup.find(...)`: first node (document order, the node itself before
its descendants) whose tag and attributes satisfy `p`. -/
def findElemN (p : String → List (String × String) → Bool) : Node → Option Node
  | .text _ => none
  | .elem t a cs => if p t a then some (.elem t a cs) else findElemL p cs
def findElemL (p : String → List (String × String) → Bool) : NodeList → Option Node
  | .nil => none
  | .cons n ns =>
    match findElemN p n with
    | some m => some m
    | none => findElemL p ns
end

mutual
/-- `soup.find_all(...)`: all matching elements in document order
(descending into matches as BeautifulSoup does). -/
def findAllN (p : String → List (String × String) → Bool) : Node → List Node
  | .text _ => []
  | .elem t a cs => (if p t a then [Node.elem t a cs] else []) ++ findAllL p cs
def findAllL (p : String → List (String × String) → Bool) : NodeList → List Node
  | .nil => []
  | .cons n ns => findAllN p n ++ findAllL p ns
end

/-! ## Field extractors (src/web_scraper.py) -/

/-- `_extract_title` (lines 79-82). -/
def extractTitle (ns : NodeList) : String :=
  match findElemL (fun t _ => t == "title") ns with
  | some n => trimS (rawTextN n)
  | none => ""

/-- `_extract_meta_description` (lines 84-87). -/
def extractMetaDescription (ns : NodeList) : String :=
  match findElemL (fun t a => t == "meta" && (a.lookup "name" == some "description")) ns with
  | some n => trimS (((nodeAttrs n).lookup "content").getD "")
  | none => ""

/-- One row of `_extract_headings` (lines 89-95): the stripped text of
every element with the given heading tag. -/
def headingTexts (tg : String) (ns : NodeList) : List String :=
  (findAllL (fun t _ => t == tg) ns).map (fun n => trimS (rawTextN n))

/-- One extracted link of `_extract_links`. -/
structure Link where
  url : String
  anchor_text : String
deriving DecidableEq, Repr

/-- `urljoin(base_url, href)` for a raw href string, as used by
`_extract_links`: absolute hrefs stand, others resolve against the base
URL (simplified renderer; no claim depends on the exact joined text). -/
def rawJoin (base : Url) (href : String) : String :=
  if listHasSub "://".data href.data then href
  else "https://" ++ base.host ++ joinPath base.path href

/-- The anchors found by `soup.find_all('a', href=True)`, in document
order, as (href value, raw text) pairs. -/
def anchorsOf (ns : NodeList) : List (String × String) :=
  (findAllL (fun t a => t == "a" && (a.lookup "href").isSome) ns).map
    (fun n => (((nodeAttrs n).lookup "href").getD "", rawTextN n))

/-- `_extract_links` (lines 116-125): keep anchors whose stripped text and
href are both non-empty, resolve the href, and return the first 50. -/
def extractLinks (base : Url) (ns : NodeList) : List Link :=
  (((anchorsOf ns).filter (fun p => trimS p.2 ≠ "" && p.1 ≠ "")).map
    (fun p => Link.mk (rawJoin base p.1) (trimS p.2))).take 50

/-- Tags decomposed by `_extract_clean_text` (line 219). -/
def cleanTags : List String := ["script", "style", "nav", "header", "footer", "aside"]

/-- `_extract_clean_text`'s whitespace cleanup: every maximal run of
whitespace becomes one space (Python `re.sub(r'\s+', ' ', text)`). -/
def squashWs : List Char → List Char
  | [] => []
  | c :: cs =>
    let r := squashWs cs
    if c.isWhitespace then
      match r with
      | ' ' :: r' => ' ' :: r'
      | _ => ' ' :: r
    else c :: r

/-- `_extract_clean_text` (lines 216-228) with its side effect made
explicit: it decomposes script/style/nav/header/footer/aside **in the
shared parsed document** and returns the normalized text of what is
left, together with the document as it remains afterwards. -/
def extractCleanTextSt (ns : NodeList) : String × NodeList :=
  (trimS (String.mk (squashWs (getTextSepStrip (pruneList cleanTags ns)).data)),
    pruneList cleanTags ns)

/-- One question/answer pair of `_extract_faq_content`. -/
structure Faq where
  question : String
  answer : String
deriving DecidableEq, Repr

/-- The CSS-selector / regex driven extractors of `scrape_page`
(`_extract_main_content`, `_extract_faq_content`, `_extract_product_info`,
`_extract_contact_info`, `_extract_navigation_text`).  They are pure
reads of the parsed document performed through the selector capability of
the parsing library; the claims under verification do not depend on
their values, so they are kept abstract. -/
structure SelectorExtractors where
  mainContent : NodeList → String
  faqContent : NodeList → List Faq
  productInfo : NodeList → List (String × String)
  contactInfo : NodeList → List (String × List String)
  navigationText : NodeList → List String

/-- One record of `scrape_page` (lines 58-71); `timestamp` (wall-clock)
is omitted.  The headings dict is laid out as one field per level. -/
structure PageRec where
  url : Url
  title : String
  meta_description : String
  h1 : List String
  h2 : List String
  h3 : List String
  h4 : List String
  h5 : List String
  h6 : List String
  main_content : String
  links : List Link
  faq_content : List Faq
  product_info : List (String × String)
  contact_info : List (String × List String)
  navigation_text : List String
  clean_text : String
deriving DecidableEq, Repr

/-- `scrape_page` (lines 40-77): fetch the page (`none` models the
`except` branch: transport error, timeout or the `raise_for_status` of a
non-2xx response) and on success build the record; on failure return
`None` — the exception never propagates.  `clean_text` is computed last
in the source, so its decomposition does not affect the other fields. -/
def scrapePage (ex : SelectorExtractors) (fetch : Url → Option NodeList) (u : Url) :
    Option PageRec :=
  match fetch u with
  | none => none
  | some doc =>
    some { url := u
           title := extractTitle doc
           meta_description := extractMetaDescription doc
           h1 := headingTexts "h1" doc
           h2 := headingTexts "h2" doc
           h3 := headingTexts "h3" doc
           h4 := headingTexts "h4" doc
           h5 := headingTexts "h5" doc
           h6 := headingTexts "h6" doc
           main_content := ex.mainContent doc
           links := extractLinks u doc
           faq_content := ex.faqContent doc
           product_info := ex.productInfo doc
           contact_info := ex.contactInfo doc
           navigation_text := ex.navigationText doc
           clean_text := (extractCleanTextSt doc).1 }

/-- `scrape_multiple_urls` (lines 230-248): for each URL append the
scraped record iff `scrape_page` returned one; `acc` is the
`self.scraped_data` list already accumulated, which the method returns. -/
def scrapeMultipleUrls (ex : SelectorExtractors) (fetch : Url → Option NodeList)
    (acc : List PageRec) : List Url → List PageRec
  | [] => acc
  | u :: rest =>
    match scrapePage ex fetch u with
    | none => scrapeMultipleUrls ex fetch acc rest
    | some r => scrapeMultipleUrls ex fetch (acc ++ [r]) rest

/-! ## CSV flattening (`save_to_csv`, src/web_scraper.py lines 300-324) -/

/-- `'; '.join(...)`. -/
def joinSemi (l : List String) : String := String.intercalate "; " l

/-- One flattened CSV row (lines 308-319). -/
structure FlatRow where
  url : Url
  title : String
  meta_description : String
  main_content : String
  clean_text : String
  h1_headings : String
  h2_headings : String
  faq_count : Nat
  links_count : Nat
deriving DecidableEq, Repr

/-- The per-record flattening of `save_to_csv`. -/
def flattenRec (r : PageRec) : FlatRow :=
  { url := r.url
    title := r.title
    meta_description := r.meta_description
    main_content := r.main_content
    clean_text := r.clean_text
    h1_headings := joinSemi r.h1
    h2_headings := joinSemi r.h2
    faq_count := r.faq_content.length
    links_count := r.links.length }

/-- `save_to_csv`: on an empty record list it returns without writing
anything (`none`); otherwise the written data rows are the flattened
records, one per record, in order. -/
def saveToCsv (data : List PageRec) : Option (List FlatRow) :=
  if data = [] then none else some (data.map flattenRec)

/-! ## Concrete fixtures used by witnesses and counterexamples -/

/-- A site root `https://x/`. -/
def exHost : Url := ⟨"x", "/", ""⟩

/-- A one-page web whose root links to `/a`. -/
def exWebLink : Web := [(exHost, [Href.rel "/a" ""])]

/-- A one-page web whose root links to `a.pdf#x`. -/
def exWebPdfFrag : Web := [(⟨"site", "/", ""⟩, [Href.rel "/a.pdf" "x"])]

/-- A one-page web whose root links to `/a#foo` and `/a#bar`. -/
def exWebFragPair : Web := [(exHost, [Href.rel "/a" "foo", Href.rel "/a" "bar"])]

/-- A one-page web whose root links to `/a` twice. -/
def exWebDupLink : Web := [(exHost, [Href.rel "/a" "", Href.rel "/a" ""])]

/-- A set-iteration order that lists deeper paths before the root. -/
def exRank : Url → Nat := fun u => if u.path = "/" then 1 else 0

/-- A parsed page whose only anchor sits inside a `<nav>` element. -/
def exDoc : NodeList :=
  .cons (.elem "nav" [] (.cons (.elem "a" [("href", "/x")] (.cons (.text "Home") .nil)) .nil))
    (.cons (.elem "p" [] (.cons (.text "Hello world") .nil)) .nil)

/-- Trivial instantiations of the selector-driven extractors. -/
def exSelExt : SelectorExtractors :=
  ⟨fun _ => "", fun _ => [], fun _ => [], fun _ => [], fun _ => []⟩

/-- A record holding three FAQ entries. -/
def exRec3 : PageRec :=
  { url := exHost
    title := "t"
    meta_description := ""
    h1 := ["h"]
    h2 := []
    h3 := []
    h4 := []
    h5 := []
    h6 := []
    main_content := "m"
    links := []
    faq_content := [⟨"q1", "a1"⟩, ⟨"q2", "a2"⟩, ⟨"q3", "a3"⟩]
    product_info := []
    contact_info := []
    navigation_text := []
    clean_text := "c" }

/-- The inductive invariant of the `discover_all_pages` loop: domain
scoping, the page cap, fragment-free visited/discovered entries, path
exclusion, depth bounds of admitted entries, and the visited/discovered
sets marching in step without duplicates. -/
structure InvA (cfg : CrawlCfg) (start : Url) (st : StA) : Prop where
  tvHost : ∀ p ∈ st.toVisit, p.1.host = start.host ∨ p.1.host = cfg.baseHost ∨ p.1.host = ""
  tvExcl : ∀ p ∈ st.toVisit, p.1 = start ∨ pathExcluded p.1 = false
  dHost : ∀ u ∈ st.discovered, u.host = start.host ∨ u.host = cfg.baseHost ∨ u.host = ""
  dLen : st.discovered.length ≤ cfg.maxPages
  dFrag : ∀ u ∈ st.discovered, u.frag = ""
  dExcl : ∀ u ∈ st.discovered, u = start.clean ∨ pathExcluded u = false
  vLog : ∀ p ∈ st.visitLog, p.2 ≤ cfg.maxDepth
  visNodup : st.visited.Nodup
  dv : st.discovered = st.visited

/-- The inductive invariant of the `discover_urls` loop: only the start
URL escapes the same-netloc check. -/
structure InvB (bh : String) (start : Url) (st : StB) : Prop where
  tvHost : ∀ p ∈ st.toVisit, p.1 = start ∨ p.1.host = bh
  dHost : ∀ u ∈ st.discovered, u = start ∨ u.host = bh

/-- The property claim C6 states, in the spec's words: the URL's **path**
component ends with an excluded extension (case-insensitively).  The code
instead tests the full URL string, fragment included. -/
def specPathEndsExcluded (u : Url) : Bool :=
  excludedExtensions.any (fun e => listEndsWith e.data (lowerL u.path.data))

/-! ## Helper lemmas -/

theorem listHasPre_append (n xs ys : List Char) (h : listHasPre n xs = true) :
    listHasPre n (xs ++ ys) = true := by
  induction n generalizing xs with
  | nil => simp [listHasPre]
  | cons a as ih =>
    cases xs with
    | nil => simp [listHasPre] at h
    | cons b bs =>
      simp only [listHasPre, Bool.and_eq_true] at h
      simp only [List.cons_append, listHasPre, Bool.and_eq_true]
      exact ⟨h.1, ih bs h.2⟩

theorem listHasSub_nil_needle (ys : List Char) : listHasSub [] ys = true := by
  cases ys <;> simp [listHasSub, listHasPre]

theorem listHasSub_append (n xs ys : List Char) (h : listHasSub n xs = true) :
    listHasSub n (xs ++ ys) = true := by
  induction xs with
  | nil =>
    simp only [listHasSub, List.isEmpty_iff] at h
    subst h
    exact listHasSub_nil_needle ys
  | cons c cs ih =>
    simp only [listHasSub, Bool.or_eq_true] at h
    rcases h with h | h
    · simp only [List.cons_append, listHasSub, Bool.or_eq_true]
      exact Or.inl (listHasPre_append n (c :: cs) ys h)
    · simp only [List.cons_append, listHasSub, Bool.or_eq_true]
      exact Or.inr (ih h)

/-- Fragment stripping never introduces an excluded path substring:
the cleaned URL string is a leading slice of the full URL string. -/
theorem pathExcluded_clean (u : Url) (h : pathExcluded u = false) :
    pathExcluded u.clean = false := by
  by_contra hc
  rw [Bool.not_eq_false, pathExcluded, List.any_eq_true] at hc
  obtain ⟨p, hp, hsub⟩ := hc
  rw [pathExcluded] at h
  rw [Bool.eq_false_iff] at h
  apply h
  rw [List.any_eq_true]
  refine ⟨p, hp, ?_⟩
  have hclean : u.clean.renderFullL = u.renderBaseL := by
    simp [Url.renderFullL, Url.clean, Url.renderBaseL]
  have hfull : u.renderFullL = u.renderBaseL ++ (if u.frag = "" then [] else '#' :: u.frag.data) := rfl
  rw [hclean] at hsub
  rw [hfull, lowerL, List.map_append]
  exact listHasSub_append _ _ _ hsub

theorem insertByRank_perm (rank : Url → Nat) (u : Url) :
    ∀ l : List Url, List.Perm (insertByRank rank u l) (u :: l) := by
  intro l
  induction l with
  | nil => simp [insertByRank]
  | cons v vs ih =>
    by_cases h : rank u ≤ rank v
    · simp [insertByRank, h]
    · simp only [insertByRank, if_neg h]
      exact (ih.cons v).trans (List.Perm.swap u v vs)

theorem pySetElems_perm (rank : Url → Nat) :
    ∀ l : List Url, List.Perm (pySetElems rank l) l := by
  intro l
  induction l with
  | nil => simp [pySetElems]
  | cons u us ih =>
    have : pySetElems rank (u :: us) = insertByRank rank u (pySetElems rank us) := rfl
    rw [this]
    exact (insertByRank_perm rank u (pySetElems rank us)).trans (ih.cons u)

theorem pageLinksA_mem (bh : String) (cu : Url) (hrefs : List Href) (fu : Url)
    (h : fu ∈ pageLinksA bh cu hrefs) :
    (fu.host = bh ∨ fu.host = "") ∧ extExcluded fu = false ∧ pathExcluded fu = false := by
  rw [pageLinksA, List.mem_filterMap] at h
  obtain ⟨hr, _, heq⟩ := h
  by_cases hs : hr.skipped
  · simp [hs] at heq
  · simp only [hs, Bool.false_eq_true, if_false] at heq
    split at heq
    · cases heq
      assumption
    · cases heq

theorem pageLinksB_mem (bh : String) (u : Url) (hrefs : List Href) (fu : Url)
    (h : fu ∈ pageLinksB bh u hrefs) : fu.host = bh := by
  rw [pageLinksB, List.mem_filterMap] at h
  obtain ⟨hr, _, heq⟩ := h
  split at heq
  · cases heq
    assumption
  · cases heq

theorem newEntriesA_mem (cfg : CrawlCfg) (web : Web) (cu : Url) (depth dlen : Nat)
    (p : Url × Nat) (h : p ∈ newEntriesA cfg web cu depth dlen) :
    (p.1.host = cfg.baseHost ∨ p.1.host = "") ∧ extExcluded p.1 = false ∧
      pathExcluded p.1 = false ∧ p.2 = depth + 1 ∧ depth < cfg.maxDepth := by
  rw [newEntriesA] at h
  split at h
  · rename_i hguard
    split at h
    · simp at h
    · rw [List.mem_map] at h
      obtain ⟨fu, hfu, heq⟩ := h
      have hm := pageLinksA_mem cfg.baseHost cu _ fu hfu
      cases heq
      exact ⟨hm.1, hm.2.1, hm.2.2, rfl, hguard.1⟩
  · simp at h

theorem newEntriesB_mem (bh : String) (web : Web) (u : Url) (depth maxDepth : Nat)
    (p : Url × Nat) (h : p ∈ newEntriesB bh web u depth maxDepth) :
    p.1.host = bh := by
  rw [newEntriesB] at h
  split at h
  · split at h
    · simp at h
    · rw [List.mem_map] at h
      obtain ⟨fu, hfu, heq⟩ := h
      have hm := pageLinksB_mem bh u _ fu hfu
      cases heq
      exact hm
  · simp at h

theorem InvA.tail (cfg : CrawlCfg) (start : Url) (st : StA) (q : Url × Nat)
    (rest : List (Url × Nat)) (h : InvA cfg start st) (hpop : st.toVisit = q :: rest) :
    InvA cfg start { st with toVisit := rest } where
  tvHost p hp := h.tvHost p (by rw [hpop]; exact List.mem_cons_of_mem _ hp)
  tvExcl p hp := h.tvExcl p (by rw [hpop]; exact List.mem_cons_of_mem _ hp)
  dHost := h.dHost
  dLen := h.dLen
  dFrag := h.dFrag
  dExcl := h.dExcl
  vLog := h.vLog
  visNodup := h.visNodup
  dv := h.dv

theorem crawlA_inv (cfg : CrawlCfg) (web : Web) (start : Url) :
    ∀ fuel st, InvA cfg start st → InvA cfg start (crawlA cfg web fuel st) := by
  intro fuel
  induction fuel with
  | zero => intro st h; simpa only [crawlA] using h
  | succ n ih =>
    intro st h
    rw [crawlA]
    split
    · rename_i hlen
      split
      · exact h
      · rename_i url depth rest hpop
        split
        · exact ih _ (h.tail cfg start st (url, depth) rest hpop)
        · split
          · exact ih _ (h.tail cfg start st (url, depth) rest hpop)
          · rename_i hskip hclean
            push_neg at hskip
            have hhead : (url, depth) ∈ st.toVisit := by
              rw [hpop]; exact List.mem_cons_self _ _
            have hurlHost := h.tvHost _ hhead
            have hurlExcl := h.tvExcl _ hhead
            have hdep : depth ≤ cfg.maxDepth := hskip.2
            refine ih _ ?_
            constructor
            · intro p hp
              rcases List.mem_append.1 hp with hp | hp
              · exact h.tvHost p (by rw [hpop]; exact List.mem_cons_of_mem _ hp)
              · rcases newEntriesA_mem cfg web url.clean depth _ p hp with ⟨hh, _, _, _, _⟩
                exact Or.inr hh
            · intro p hp
              rcases List.mem_append.1 hp with hp | hp
              · exact h.tvExcl p (by rw [hpop]; exact List.mem_cons_of_mem _ hp)
              · rcases newEntriesA_mem cfg web url.clean depth _ p hp with ⟨_, _, hpe, _, _⟩
                exact Or.inr hpe
            · intro u hu
              rcases List.mem_append.1 hu with hu | hu
              · exact h.dHost u hu
              · rw [List.mem_singleton] at hu
                subst hu
                exact hurlHost
            · simpa using Nat.succ_le_of_lt hlen
            · intro u hu
              rcases List.mem_append.1 hu with hu | hu
              · exact h.dFrag u hu
              · rw [List.mem_singleton] at hu
                subst hu
                rfl
            · intro u hu
              rcases List.mem_append.1 hu with hu | hu
              · exact h.dExcl u hu
              · rw [List.mem_singleton] at hu
                subst hu
                rcases hurlExcl with he | he
                · exact Or.inl (by rw [show url = start from he])
                · exact Or.inr (pathExcluded_clean url he)
            · intro p hp
              rcases List.mem_append.1 hp with hp | hp
              · exact h.vLog p hp
              · rw [List.mem_singleton] at hp
                subst hp
                exact hdep
            · rw [List.nodup_append]
              exact ⟨h.visNodup, List.nodup_singleton _,
                by intro a ha hb; rw [List.mem_singleton] at hb; subst hb; exact hclean ha⟩
            · rw [h.dv]
    · exact h

/-- The invariant established by every finished or unfinished run of
`discover_all_pages`. -/
theorem discoverAllPages_inv (cfg : CrawlCfg) (web : Web) (start : Url) (fuel : Nat) :
    InvA cfg start (discoverAllPages cfg web start fuel) := by
  apply crawlA_inv
  constructor
  · intro p hp
    rw [List.mem_singleton] at hp
    subst hp
    exact Or.inl rfl
  · intro p hp
    rw [List.mem_singleton] at hp
    subst hp
    exact Or.inl rfl
  · intro u hu; cases hu
  · exact Nat.zero_le _
  · intro u hu; cases hu
  · intro u hu; cases hu
  · intro p hp; cases hp
  · exact List.nodup_nil
  · rfl

theorem crawlB_inv (bh : String) (web : Web) (maxDepth : Nat) (start : Url) :
    ∀ fuel st, InvB bh start st → InvB bh start (crawlB bh web maxDepth fuel st) := by
  intro fuel
  induction fuel with
  | zero => intro st h; simpa only [crawlB] using h
  | succ n ih =>
    intro st h
    rw [crawlB]
    split
    · exact h
    · rename_i url depth rest hpop
      have htail : ∀ p ∈ rest, p.1 = start ∨ p.1.host = bh := by
        intro p hp
        exact h.tvHost p (by rw [hpop]; exact List.mem_cons_of_mem _ hp)
      have hhead : url = start ∨ url.host = bh :=
        h.tvHost (url, depth) (by rw [hpop]; exact List.mem_cons_self _ _)
      split
      · exact ih _ ⟨htail, h.dHost⟩
      · refine ih _ ⟨?_, ?_⟩
        · intro p hp
          rcases List.mem_append.1 hp with hp | hp
          · exact htail p hp
          · exact Or.inr (newEntriesB_mem bh web url depth maxDepth p hp)
        · intro u hu
          rcases List.mem_append.1 hu with hu | hu
          · exact h.dHost u hu
          · rw [List.mem_singleton] at hu
            subst hu
            exact hhead

/-- The invariant established by every run of `discover_urls`. -/
theorem discoverUrls_inv (bh : String) (web : Web) (start : Url) (maxDepth fuel : Nat) :
    InvB bh start (discoverUrls bh web start maxDepth fuel) := by
  apply crawlB_inv
  constructor
  · intro p hp
    rw [List.mem_singleton] at hp
    subst hp
    exact Or.inl rfl
  · intro u hu; cases hu

theorem Url.clean_of_frag_empty (u : Url) (h : u.frag = "") : u.clean = u := by
  cases u with
  | mk host path frag =>
    simp only at h
    rw [Url.clean, h]

/-- Hrefs matched by the skip test contribute nothing: the link filter of
`discover_all_pages` behaves as if they were removed first. -/
theorem pageLinksA_skips (bh : String) (cu : Url) :
    ∀ hrefs, pageLinksA bh cu hrefs = pageLinksA bh cu (hrefs.filter (fun h => !h.skipped)) := by
  intro hrefs
  induction hrefs with
  | nil => rfl
  | cons hd tl ih =>
    by_cases hs : hd.skipped
    · rw [show pageLinksA bh cu (hd :: tl) = pageLinksA bh cu tl by
        simp [pageLinksA, List.filterMap_cons, hs]]
      rw [List.filter_cons, if_neg (by simp [hs])]
      exact ih
    · rw [List.filter_cons, if_pos (by simp [hs])]
      simp only [pageLinksA, List.filterMap_cons]
      rw [← pageLinksA, ← pageLinksA, ih]

mutual
theorem pruneNode_idem (bad : List String) :
    ∀ (n m : Node), pruneNode bad n = some m → pruneNode bad m = some m
  | .text s, m, h => by
    rw [pruneNode] at h
    cases h
    rfl
  | .elem t a cs, m, h => by
    rw [pruneNode] at h
    split at h
    · cases h
    · cases h
      rename_i ht
      rw [pruneNode, if_neg ht, pruneList_idem bad cs]
theorem pruneList_idem (bad : List String) :
    ∀ ns, pruneList bad (pruneList bad ns) = pruneList bad ns
  | .nil => rfl
  | .cons n ns => by
    cases hp : pruneNode bad n with
    | none =>
      simp only [pruneList, hp]
      exact pruneList_idem bad ns
    | some m =>
      simp only [pruneList, hp, pruneNode_idem bad n m hp]
      rw [pruneList_idem bad ns]
end

theorem scrapeMultipleUrls_eq (ex : SelectorExtractors) (fetch : Url → Option NodeList) :
    ∀ urls acc, scrapeMultipleUrls ex fetch acc urls = acc ++ urls.filterMap (scrapePage ex fetch) := by
  intro urls
  induction urls with
  | nil => intro acc; simp [scrapeMultipleUrls]
  | cons u rest ih =>
    intro acc
    cases hp : scrapePage ex fetch u with
    | none => simp [scrapeMultipleUrls, hp, ih, List.filterMap_cons]
    | some r => simp [scrapeMultipleUrls, hp, ih, List.filterMap_cons]

/-! ## Claim C1 -/

/-- C1 (counterexample): the claim that every URL in the discovered set,
the start URL included, has the configured base domain's host is false:
`discover_all_pages` never domain-checks the start URL, so starting a
crawl with base URL `https://good.com` at `https://evil.com/` puts
`https://evil.com/` into the discovered set. -/
theorem c1_domain_counterexample :
    ¬ ∀ u ∈ (discoverAllPages ⟨"good.com", 10, 2⟩ ([] : Web) ⟨"evil.com", "/", ""⟩ 5).discovered,
      u.host = "good.com" := by decide

/-- C1 (amended): every URL in `discover_all_pages`' discovered set has
the start URL's host, the configured base domain, or an empty host (the
code admits empty netlocs); in `discover_urls` every discovered URL other
than the start URL has exactly the configured base netloc.  Only the
start URL escapes the domain check. -/
theorem c1_domain_amended (cfg : CrawlCfg) (web : Web) (start : Url) (fuel : Nat) :
    (∀ u ∈ (discoverAllPages cfg web start fuel).discovered,
        u.host = start.host ∨ u.host = cfg.baseHost ∨ u.host = "") ∧
    ∀ (bh : String) (web2 : Web) (start2 : Url) (md fuel2 : Nat),
      ∀ u ∈ (discoverUrls bh web2 start2 md fuel2).discovered, u = start2 ∨ u.host = bh :=
  ⟨(discoverAllPages_inv cfg web start fuel).dHost,
   fun bh web2 start2 md fuel2 => (discoverUrls_inv bh web2 start2 md fuel2).dHost⟩

/-- C1 witness: in a concrete crawl of `https://x/` the discovered link
`https://x/a` satisfies the amended host disjunction. -/
theorem c1_domain_witness :
    (⟨"x", "/a", ""⟩ : Url).host = exHost.host ∨ (⟨"x", "/a", ""⟩ : Url).host = "x" ∨
      (⟨"x", "/a", ""⟩ : Url).host = "" :=
  (c1_domain_amended ⟨"x", 50, 2⟩ exWebLink exHost 9).1 ⟨"x", "/a", ""⟩ (by decide)

/-! ## Claim C2 -/

/-- C2: every `discover_all_pages` crawl discovers at most `maxPages`
URLs (both as the set size and as the length of the returned list) and
every frontier entry admitted past the checks (recorded in `visitLog`)
has depth at most `maxDepth`. -/
theorem c2_limits (cfg : CrawlCfg) (web : Web) (start : Url) (fuel : Nat) (rank : Url → Nat) :
    (discoverAllPages cfg web start fuel).discovered.length ≤ cfg.maxPages ∧
    (discoverAllPagesRet rank cfg web start fuel).length ≤ cfg.maxPages ∧
    ∀ p ∈ (discoverAllPages cfg web start fuel).visitLog, p.2 ≤ cfg.maxDepth := by
  have hinv := discoverAllPages_inv cfg web start fuel
  refine ⟨hinv.dLen, ?_, hinv.vLog⟩
  rw [discoverAllPagesRet, (pySetElems_perm rank _).length_eq]
  exact hinv.dLen

/-- C2 witness: the limits hold on a concrete crawl, and the admitted
seed entry has depth 0 ≤ 2. -/
theorem c2_limits_witness :
    (discoverAllPages ⟨"x", 50, 2⟩ exWebLink exHost 9).discovered.length ≤ 50 ∧
      (exHost, 0).2 ≤ 2 :=
  ⟨(c2_limits ⟨"x", 50, 2⟩ exWebLink exHost 9 exRank).1,
   (c2_limits ⟨"x", 50, 2⟩ exWebLink exHost 9 exRank).2.2 (exHost, 0) (by decide)⟩

/-! ## Claim C3 -/

/-- C3 (counterexample): the returned list is `list(discovered_urls)`
over a Python `set`, whose iteration order is the hash-table order, not
insertion order: under an iteration order that lists `/a` before `/`,
the returned sequence differs from the discovery sequence. -/
theorem c3_order_counterexample :
    discoverAllPagesRet exRank ⟨"x", 50, 2⟩ exWebLink exHost 9 ≠
      (discoverAllPages ⟨"x", 50, 2⟩ exWebLink exHost 9).discovered := by decide

/-- C3 (amended): for both crawlers, the returned list contains exactly
the URLs of the discovered set — each discovered URL once — but in an
unspecified set-iteration order, not necessarily discovery order. -/
theorem c3_order_amended (rank : Url → Nat) (cfg : CrawlCfg) (web : Web) (start : Url)
    (fuel : Nat) (bh : String) (md : Nat) :
    List.Perm (discoverAllPagesRet rank cfg web start fuel)
      (discoverAllPages cfg web start fuel).discovered ∧
    List.Perm (discoverUrlsRet rank bh web start md fuel)
      (discoverUrls bh web start md fuel).discovered :=
  ⟨pySetElems_perm rank _, pySetElems_perm rank _⟩

/-! ## Claim C4 -/

/-- C4: a failed fetch (`fetch u = none`, covering transport errors and
`raise_for_status` on non-2xx) makes `scrape_page` return `None` without
raising; `scrape_multiple_urls` appends exactly the successful records to
the accumulated list and keeps going, so when every seed URL fails the
accumulated record list is returned unchanged (empty seed → empty). -/
theorem c4_failed_fetch (ex : SelectorExtractors) (fetch : Url → Option NodeList)
    (acc : List PageRec) (urls : List Url) :
    (∀ u, fetch u = none → scrapePage ex fetch u = none) ∧
    scrapeMultipleUrls ex fetch acc urls = acc ++ urls.filterMap (scrapePage ex fetch) ∧
    ((∀ u ∈ urls, fetch u = none) → scrapeMultipleUrls ex fetch acc urls = acc) := by
  refine ⟨?_, scrapeMultipleUrls_eq ex fetch urls acc, ?_⟩
  · intro u hu
    rw [scrapePage, hu]
  · intro hall
    rw [scrapeMultipleUrls_eq ex fetch urls acc]
    have hnil : urls.filterMap (scrapePage ex fetch) = [] := by
      rw [List.filterMap_eq_nil_iff]
      intro u hu
      rw [scrapePage, hall u hu]
    rw [hnil, List.append_nil]

/-- C4 witness: a seed list with one URL whose fetch fails (e.g. a 404)
yields an empty record set and the crawl completes. -/
theorem c4_failed_fetch_witness :
    scrapeMultipleUrls exSelExt (fun _ => none) [] [exHost] = [] :=
  (c4_failed_fetch exSelExt (fun _ => none) [] [exHost]).2.2 (fun _ _ => rfl)

/-! ## Claim C5 -/

/-- C5 (counterexample): in `discover_urls` (web_scraper.py) the visited
set is keyed on the **full** URL, fragment included: crawling a page
linking to `/a#foo` and `/a#bar` discovers two distinct entries that
differ only in their fragment. -/
theorem c5_fragment_counterexample :
    ¬ (∀ u1 ∈ (discoverUrls "x" exWebFragPair exHost 2 9).discovered,
        ∀ u2 ∈ (discoverUrls "x" exWebFragPair exHost 2 9).discovered,
          u1.host = u2.host → u1.path = u2.path → u1 = u2) := by decide

/-- C5 (amended): `discover_all_pages` is fragment-insensitive — every
discovered URL is fragment-free, the discovered sequence has no
duplicates, and two visited entries with the same fragment-stripped form
are equal — but `discover_urls` is not (see the counterexample). -/
theorem c5_fragment_amended (cfg : CrawlCfg) (web : Web) (start : Url) (fuel : Nat) :
    (discoverAllPages cfg web start fuel).discovered.Nodup ∧
    (∀ u ∈ (discoverAllPages cfg web start fuel).discovered, u.frag = "") ∧
    ∀ u1 ∈ (discoverAllPages cfg web start fuel).visited,
      ∀ u2 ∈ (discoverAllPages cfg web start fuel).visited,
        u1.clean = u2.clean → u1 = u2 := by
  have hinv := discoverAllPages_inv cfg web start fuel
  have hdisc : ∀ u ∈ (discoverAllPages cfg web start fuel).visited,
      u ∈ (discoverAllPages cfg web start fuel).discovered := by
    intro u hu
    rw [hinv.dv]
    exact hu
  refine ⟨hinv.dv ▸ hinv.visNodup, hinv.dFrag, ?_⟩
  intro u1 h1 u2 h2 hcl
  have f1 : u1.frag = "" := hinv.dFrag u1 (hdisc u1 h1)
  have f2 : u2.frag = "" := hinv.dFrag u2 (hdisc u2 h2)
  calc u1 = u1.clean := (Url.clean_of_frag_empty u1 f1).symm
    _ = u2.clean := hcl
    _ = u2 := Url.clean_of_frag_empty u2 f2

/-- C5 witness: in a concrete `discover_all_pages` crawl following links
`/a#foo` and `/a#bar`, the single discovered entry `/a` is fragment-free. -/
theorem c5_fragment_witness : (⟨"x", "/a", ""⟩ : Url).frag = "" :=
  (c5_fragment_amended ⟨"x", 50, 2⟩ exWebFragPair exHost 9).2.1 ⟨"x", "/a", ""⟩ (by decide)

/-! ## Claim C6 -/

/-- C6 (counterexample): the extension filter runs on the full URL before
the fragment is stripped, so the link `a.pdf#x` passes the filter (the
string ends in `#x`), and after fragment stripping the URL
`https://site/a.pdf` — whose path ends in the excluded extension `.pdf`
— enters the discovered set. -/
theorem c6_exclusion_counterexample :
    (⟨"site", "/a.pdf", ""⟩ : Url) ∈
        (discoverAllPages ⟨"site", 50, 3⟩ exWebPdfFrag ⟨"site", "/", ""⟩ 6).discovered ∧
      specPathEndsExcluded ⟨"site", "/a.pdf", ""⟩ = true := by decide

/-- C6 (amended): the link discoverer skips empty, fragment-only,
`javascript:`, `mailto:` and `tel:` hrefs; an enqueued URL's **full
string** (lowercased, fragment included) never ends with an excluded
extension nor contains an excluded path substring; and every discovered
URL except possibly the start URL is free of excluded path substrings.
A URL whose path ends with an excluded extension can still be discovered
when the link carried a fragment (see the counterexample). -/
theorem c6_exclusion_amended (bh : String) (cu : Url) (hrefs : List Href) (cfg : CrawlCfg)
    (web : Web) (start : Url) (fuel : Nat) :
    pageLinksA bh cu hrefs = pageLinksA bh cu (hrefs.filter (fun h => !h.skipped)) ∧
    (∀ fu ∈ pageLinksA bh cu hrefs, extExcluded fu = false ∧ pathExcluded fu = false) ∧
    ∀ u ∈ (discoverAllPages cfg web start fuel).discovered,
      u = start.clean ∨ pathExcluded u = false := by
  refine ⟨pageLinksA_skips bh cu hrefs, ?_, (discoverAllPages_inv cfg web start fuel).dExcl⟩
  intro fu hfu
  exact (pageLinksA_mem bh cu hrefs fu hfu).2

/-- C6 witness: the concrete enqueued link `https://x/a` passes both
exclusion filters. -/
theorem c6_exclusion_witness :
    extExcluded ⟨"x", "/a", ""⟩ = false ∧ pathExcluded ⟨"x", "/a", ""⟩ = false :=
  (c6_exclusion_amended "x" exHost [Href.rel "/a" ""] ⟨"x", 50, 2⟩ exWebLink exHost 9).2.1
    ⟨"x", "/a", ""⟩ (by decide)

/-! ## Claim C7 -/

/-- C7 (counterexample): the frontier is appended to without any visited
check — that check only runs when an entry is popped — so a page linking
to `/a` twice enqueues the same fragment-stripped URL twice. -/
theorem c7_enqueue_counterexample :
    ¬ (((discoverAllPages ⟨"x", 50, 2⟩ exWebDupLink exHost 9).enqLog.map
        (fun p => p.1.clean)).Nodup) := by decide

/-- C7 (amended): the visited set keyed on the fragment-stripped URL
prevents a second **visit** (and hence a second discovery) of the same
URL: the visited sequence never repeats, and the discovered set always
equals the visited set.  The same URL may still be enqueued repeatedly;
duplicates are dropped when popped. -/
theorem c7_enqueue_amended (cfg : CrawlCfg) (web : Web) (start : Url) (fuel : Nat) :
    (discoverAllPages cfg web start fuel).visited.Nodup ∧
    (discoverAllPages cfg web start fuel).discovered =
      (discoverAllPages cfg web start fuel).visited :=
  ⟨(discoverAllPages_inv cfg web start fuel).visNodup,
   (discoverAllPages_inv cfg web start fuel).dv⟩

/-! ## Claim C8 -/

/-- C8 (counterexample): `_extract_clean_text` decomposes
script/style/nav/header/footer/aside **in the shared parsed document**,
so extraction is not independent of prior extractor invocations: after it
runs, `_extract_links` no longer sees the anchor inside `<nav>`. -/
theorem c8_purity_counterexample :
    extractLinks exHost (extractCleanTextSt exDoc).2 ≠ extractLinks exHost exDoc := by decide

/-- C8 (amended): each extractor is a deterministic function of the
document it is handed, and the one mutating extractor,
`_extract_clean_text`, is stable: run on the document it itself left
behind it returns the same text and leaves the document unchanged
(decomposition is idempotent).  Results are, however, not independent of
prior invocations (see the counterexample). -/
theorem c8_purity_amended (ns : NodeList) :
    extractCleanTextSt (extractCleanTextSt ns).2 = extractCleanTextSt ns := by
  rw [extractCleanTextSt, extractCleanTextSt, pruneList_idem]

/-! ## Claim C9 -/

/-- C9: on a non-empty record list `save_to_csv` writes exactly one data
row per record, and each row's `faq_count` equals the number of FAQ
entries of its record. -/
theorem c9_csv_rows (data : List PageRec) (hne : data ≠ []) :
    ∃ rows, saveToCsv data = some rows ∧ rows.length = data.length ∧
      ∀ i : Nat, (rows[i]?).map FlatRow.faq_count =
        (data[i]?).map (fun r => r.faq_content.length) := by
  refine ⟨data.map flattenRec, ?_, by rw [List.length_map], ?_⟩
  · rw [saveToCsv, if_neg hne]
  · intro i
    rw [List.getElem?_map]
    cases data[i]? <;> rfl

/-- C9 witness: a record with three FAQ entries produces `faq_count = 3`
and a one-record list produces exactly one row. -/
theorem c9_csv_rows_witness :
    (flattenRec exRec3).faq_count = 3 ∧
    (∃ rows, saveToCsv [exRec3] = some rows ∧ rows.length = [exRec3].length ∧
      ∀ i : Nat, (rows[i]?).map FlatRow.faq_count =
        ([exRec3][i]?).map (fun r => r.faq_content.length)) :=
  ⟨rfl, c9_csv_rows [exRec3] (List.cons_ne_nil _ _)⟩

/-! ## Claim C10 -/

/-- C10: `_extract_links` returns at most 50 links, every returned link
has non-empty (stripped) anchor text, and the returned sequence is a
leading slice of the document-order sequence of all matching anchors. -/
theorem c10_links (base : Url) (ns : NodeList) :
    (extractLinks base ns).length ≤ 50 ∧
    (∀ e ∈ extractLinks base ns, e.anchor_text ≠ "") ∧
    extractLinks base ns <+:
      ((anchorsOf ns).filter (fun p => trimS p.2 ≠ "" && p.1 ≠ "")).map
        (fun p => Link.mk (rawJoin base p.1) (trimS p.2)) := by
  refine ⟨?_, ?_, ?_⟩
  · rw [extractLinks, List.length_take]
    exact min_le_left _ _
  · intro e he
    rw [extractLinks] at he
    have he' := List.mem_of_mem_take he
    rw [List.mem_map] at he'
    obtain ⟨p, hp, heq⟩ := he'
    rw [List.mem_filter] at hp
    have hne : trimS p.2 ≠ "" := by
      have h2 := hp.2
      simp only [Bool.and_eq_true, decide_eq_true_eq] at h2
      exact h2.1
    cases heq
    exact hne
  · rw [extractLinks]
    exact ⟨_, List.take_append_drop 50 _⟩

/-- C10 witness: on the concrete document the single returned link
carries the non-empty anchor text `"Home"`. -/
theorem c10_links_witness : (Link.mk "https://x/x" "Home").anchor_text ≠ "" :=
  (c10_links exHost exDoc).2.1 (Link.mk "https://x/x" "Home") (by decide)
